import Mathlib

/-!
Formal model of the Tryton purchase module (`purchase.py`).

Purchases, purchase lines, linked invoices and linked stock moves are
modelled as explicit records; the derived-state computations
(`get_invoice_state`, `get_shipment_state`, `get_amount`,
`PurchaseLine.get_amount`, `get_move_done`, `get_move_exception`),
the processing pipeline (`process`, `create_invoice`, `create_move`,
`get_invoice_line`, `get_move`), the deletion/cancellation workflow and
the two exception-handling wizards are translated as executable Lean
functions over those records.  Monetary amounts and quantities are
rationals; fallible operations return `Except String`.
-/

/-- Lifecycle state of a purchase (`purchase.purchase.state`). -/
inductive PState
  | draft | quotation | confirmed | done | cancel
deriving DecidableEq, Repr

/-- State of an account invoice (`account.invoice.state`). -/
inductive InvState
  | draft | validated | posted | paid | cancel
deriving DecidableEq, Repr

/-- State of a stock move (`stock.move.state`). -/
inductive MoveState
  | draft | assigned | done | cancel
deriving DecidableEq, Repr

/-- Derived invoice status of a purchase (`purchase.purchase.invoice_state`). -/
inductive PInvoiceState
  | none | waiting | paid | exception
deriving DecidableEq, Repr

/-- Derived shipment status of a purchase (`purchase.purchase.shipment_state`). -/
inductive PShipmentState
  | none | waiting | received | exception
deriving DecidableEq, Repr

/-- Invoice method policy of a purchase (`purchase.purchase.invoice_method`). -/
inductive InvoiceMethod
  | manual | order | shipment
deriving DecidableEq, Repr

/-- Discriminated kind of a purchase line (`purchase.line.type`). -/
inductive LineType
  | line | subtotal | title | comment
deriving DecidableEq, Repr

/-- Kind of a product (`product.product.type`). -/
inductive ProductType
  | goods | assets | service
deriving DecidableEq, Repr

/-- Direction of an invoice (`account.invoice.type`). -/
inductive InvoiceType
  | inInvoice | inCreditNote
deriving DecidableEq, Repr

/-- Unit of measure; `factor` is its conversion factor to the reference
unit of its category. -/
structure Uom where
  factor : ℚ
deriving DecidableEq, Repr

/-- Modelled from the spec: the framework's `Uom.compute_qty` converts a
quantity expressed in `fromUom` into `toUom` through the category
reference unit (the framework service itself is out of scope, so the
conversion is taken to be the exact factor ratio). -/
def computeQty (fromUom : Uom) (qty : ℚ) (toUom : Uom) : ℚ :=
  qty * fromUom.factor / toUom.factor

/-- A purchasable product; `hasExpenseAccount` records whether
`product.account_expense_used` is set. -/
structure Product where
  ptype : ProductType
  hasExpenseAccount : Bool
deriving DecidableEq, Repr

/-- A stock move linked to a purchase line. -/
structure Move where
  id : Nat
  state : MoveState
  uom : Uom
  quantity : ℚ
deriving DecidableEq, Repr

/-- An invoice line linked to a purchase line through its `origin`. -/
structure InvoiceLine where
  id : Nat
  iltype : LineType
  unit : Uom
  quantity : ℚ
deriving DecidableEq, Repr

/-- An account invoice linked to a purchase; `lineIds` are the ids of its
invoice lines. -/
structure Invoice where
  id : Nat
  state : InvState
  lineIds : List Nat
deriving DecidableEq, Repr

/-- A purchase line (`purchase.line`): kind, quantity/price data and the
linkage to stock moves and invoice lines, with the ignored/recreated
move id sets. -/
structure PurchaseLine where
  id : Nat
  ltype : LineType
  quantity : ℚ
  unitPrice : ℚ
  unit : Uom
  product : Option Product
  moves : List Move
  movesIgnored : List Nat
  movesRecreated : List Nat
  invoiceLines : List InvoiceLine
deriving DecidableEq, Repr

/-- A purchase (`purchase.purchase`).  `currencyRound` is the currency's
rounding function (framework-provided, hence abstract); `partyHasPayable`,
`partyHasSupplierLocation` and `propertyExpense` record whether the
supplier's payable account, the supplier location and the default
expense-account property are configured; `nextId` models the ORM's id
sequence for newly created records. -/
structure Purchase where
  state : PState
  reference : Option Nat
  purchaseDate : Option Nat
  invoiceMethod : InvoiceMethod
  invoiceState : PInvoiceState
  shipmentState : PShipmentState
  partyHasPayable : Bool
  partyHasSupplierLocation : Bool
  propertyExpense : Bool
  currencyRound : ℚ → ℚ
  lines : List PurchaseLine
  invoices : List Invoice
  invoicesIgnored : List Invoice
  invoicesRecreated : List Invoice
  untaxedAmountCache : Option ℚ
  taxAmountCache : Option ℚ
  totalAmountCache : Option ℚ
  nextId : Nat

/-- Amount of a `line`-kind purchase line: `currency.round(quantity * unit_price)`
(`PurchaseLine.get_amount`, `line` branch). -/
def lineAmount (round : ℚ → ℚ) (l : PurchaseLine) : ℚ :=
  round (l.quantity * l.unitPrice)

/-- Loop of `PurchaseLine.get_amount` for a `subtotal` line: walk the
purchase's lines accumulating `line` amounts, reset at every other
subtotal, stop at the subtotal itself (Tryton records compare by id). -/
def subtotalLoop (round : ℚ → ℚ) (self : PurchaseLine) :
    List PurchaseLine → ℚ → ℚ
  | [], acc => acc
  | l :: rest, acc =>
    if l.ltype = LineType.line then
      subtotalLoop round self rest (acc + lineAmount round l)
    else if l.ltype = LineType.subtotal then
      if l.id = self.id then acc
      else subtotalLoop round self rest 0
    else subtotalLoop round self rest acc

/-- Function `PurchaseLine.get_amount`: amount of a purchase line of any kind. -/
def lineGetAmount (p : Purchase) (self : PurchaseLine) : ℚ :=
  if self.ltype = LineType.line then lineAmount p.currencyRound self
  else if self.ltype = LineType.subtotal then
    subtotalLoop p.currencyRound self p.lines 0
  else 0

/-- Segment of lines after the last `subtotal` break (the claim's
"back to the previous subtotal line"). -/
def sinceLastBreak (ls : List PurchaseLine) : List PurchaseLine :=
  ls.foldl (fun acc l => if l.ltype = LineType.subtotal then [] else acc ++ [l]) []

/-- Subtotal amount as the spec words it: the sum of the amounts of the
`line`-kind lines preceding the subtotal, back to the previous subtotal
break. -/
def specSubtotalAmount (round : ℚ → ℚ) (pre : List PurchaseLine) : ℚ :=
  (((sinceLastBreak pre).filter (fun l => decide (l.ltype = LineType.line))).map
    (lineAmount round)).sum

/-- Ids of the invoices in the ignored or recreated sets of a purchase
(the `skip_ids` of `get_invoice_state`). -/
def invSkipIds (p : Purchase) : List Nat :=
  p.invoicesIgnored.map Invoice.id ++ p.invoicesRecreated.map Invoice.id

/-- Active linked invoices: those neither ignored nor recreated. -/
def activeInvoices (p : Purchase) : List Invoice :=
  p.invoices.filter (fun i => decide (i.id ∉ invSkipIds p))

/-- Function `Purchase.get_invoice_state`: derived invoice status of a purchase. -/
def getInvoiceState (p : Purchase) : PInvoiceState :=
  let invoices := activeInvoices p
  if invoices ≠ [] then
    if invoices.any (fun i => decide (i.state = InvState.cancel)) then
      PInvoiceState.exception
    else if invoices.all (fun i => decide (i.state = InvState.paid)) then
      PInvoiceState.paid
    else PInvoiceState.waiting
  else PInvoiceState.none

/-- Function `Purchase.set_invoice_state`: writes the derived status back only when
it differs; the boolean records whether a write was performed. -/
def setInvoiceState (p : Purchase) : Purchase × Bool :=
  let state := getInvoiceState p
  if p.invoiceState ≠ state then ({ p with invoiceState := state }, true)
  else (p, false)

/-- Skip set of a purchase line's move computations
(`moves_recreated + moves_ignored`). -/
def moveSkipIds (l : PurchaseLine) : List Nat :=
  l.movesRecreated ++ l.movesIgnored

/-- Loop of `PurchaseLine.get_move_done`: breaks (returning `false`) at the
first move that is neither done nor skipped, otherwise subtracts every
move's converted quantity from the remaining ordered quantity. -/
def moveDoneLoop (l : PurchaseLine) : List Move → ℚ → Bool × ℚ
  | [], q => (true, q)
  | m :: rest, q =>
    if m.state ≠ MoveState.done ∧ m.id ∉ moveSkipIds l then (false, q)
    else moveDoneLoop l rest (q - computeQty m.uom m.quantity l.unit)

/-- Function `PurchaseLine.get_move_done`: whether the line's fulfillment is complete. -/
def getMoveDone (l : PurchaseLine) : Bool :=
  match l.product with
  | Option.none => true
  | some prod =>
    if prod.ptype = ProductType.service then true
    else
      let r := moveDoneLoop l l.moves l.quantity
      if r.1 then decide (¬ r.2 > 0) else false

/-- Function `PurchaseLine.get_move_exception`: whether the line has a cancelled
move that is neither ignored nor recreated. -/
def getMoveException (l : PurchaseLine) : Bool :=
  l.moves.any (fun m => decide (m.state = MoveState.cancel ∧ m.id ∉ moveSkipIds l))

/-- Function `Purchase.get_moves`: all moves of all lines of the purchase. -/
def purchaseMoves (p : Purchase) : List Move :=
  (p.lines.map PurchaseLine.moves).flatten

/-- Function `Purchase.get_shipment_state`: derived shipment status of a purchase. -/
def getShipmentState (p : Purchase) : PShipmentState :=
  if purchaseMoves p ≠ [] then
    if p.lines.any getMoveException then PShipmentState.exception
    else if p.lines.all getMoveDone then PShipmentState.received
    else PShipmentState.waiting
  else PShipmentState.none

/-- Function `Purchase.set_shipment_state`: writes the derived status back only when
it differs; the boolean records whether a write was performed. -/
def setShipmentState (p : Purchase) : Purchase × Bool :=
  let state := getShipmentState p
  if p.shipmentState ≠ state then ({ p with shipmentState := state }, true)
  else (p, false)

/-- Per-line fulfillment completeness as claim C2 words it: the line's
non-skipped moves are all done and their summed converted quantities cover
the ordered quantity. -/
def claimMoveDone (l : PurchaseLine) : Bool :=
  let nonSkipped := l.moves.filter (fun m => decide (m.id ∉ moveSkipIds l))
  decide ((∀ m ∈ nonSkipped, m.state = MoveState.done)
    ∧ l.quantity ≤ (nonSkipped.map (fun m => computeQty m.uom m.quantity l.unit)).sum)

/-- Shipment status as claim C2 words it (same tie-break order, but with
`claimMoveDone` as the per-line completeness test). -/
def claimShipmentState (p : Purchase) : PShipmentState :=
  if purchaseMoves p = [] then PShipmentState.none
  else if p.lines.any getMoveException then PShipmentState.exception
  else if p.lines.all claimMoveDone then PShipmentState.received
  else PShipmentState.waiting

/-- Per-line fulfillment completeness as the amended claim words it: a line
with no product or a service product always counts as done; any other line
counts as done exactly when each of its moves is either done or skipped
and the summed converted quantities of all its moves cover the ordered
quantity. -/
def amendedMoveDone (l : PurchaseLine) : Bool :=
  match l.product with
  | Option.none => true
  | some prod =>
    if prod.ptype = ProductType.service then true
    else
      decide ((∀ m ∈ l.moves, m.state = MoveState.done ∨ m.id ∈ moveSkipIds l)
        ∧ l.quantity ≤ (l.moves.map (fun m => computeQty m.uom m.quantity l.unit)).sum)

/-- Shipment status as the amended claim C2 words it. -/
def amendedShipmentState (p : Purchase) : PShipmentState :=
  if purchaseMoves p = [] then PShipmentState.none
  else if p.lines.any getMoveException then PShipmentState.exception
  else if p.lines.all amendedMoveDone then PShipmentState.received
  else PShipmentState.waiting

/-- The purchase states in which amounts are cached
(`Purchase._states_cached`). -/
def statesCached : List PState := [PState.confirmed, PState.done, PState.cancel]

/-- Function `Purchase.get_amount`: the triple (untaxed, tax, total).  The cached
path is taken when the state is cached and all three cache fields are set;
otherwise the amounts are recomputed from the lines.  The framework's
tax-computation service (`get_tax_amount` delegates to `Tax.compute`) is
abstracted as the parameter `taxOf`. -/
def getAmount (taxOf : Purchase → ℚ) (p : Purchase) : ℚ × ℚ × ℚ :=
  if p.state ∈ statesCached ∧ p.untaxedAmountCache.isSome = true
      ∧ p.taxAmountCache.isSome = true ∧ p.totalAmountCache.isSome = true then
    (p.untaxedAmountCache.getD 0, p.taxAmountCache.getD 0, p.totalAmountCache.getD 0)
  else
    let untaxed := ((p.lines.filter (fun l => decide (l.ltype = LineType.line))).map
      (lineAmount p.currencyRound)).sum
    let tax := taxOf p
    (untaxed, tax, untaxed + tax)

/-- Function `Purchase.store_cache`: persists the currently computed amounts into
the three cache fields. -/
def storeCache (taxOf : Purchase → ℚ) (p : Purchase) : Purchase :=
  let a := getAmount taxOf p
  { p with untaxedAmountCache := some a.1, taxAmountCache := some a.2.1,
           totalAmountCache := some a.2.2 }

/-- The three cache fields, when all set, satisfy total = untaxed + tax. -/
def cacheConsistent (p : Purchase) : Prop :=
  match p.untaxedAmountCache, p.taxAmountCache, p.totalAmountCache with
  | some u, some t, some tot => tot = u + t
  | _, _, _ => True

/-- Allowed workflow transitions of a purchase (`Purchase._transitions`). -/
def purchaseTransitions : List (PState × PState) :=
  [(PState.draft, PState.quotation), (PState.quotation, PState.confirmed),
   (PState.confirmed, PState.confirmed), (PState.draft, PState.cancel),
   (PState.quotation, PState.cancel), (PState.quotation, PState.draft),
   (PState.cancel, PState.draft)]

/-- Modelled from the spec: the framework's `Workflow.transition` decorator
(out of scope per the spec's external-interfaces section) runs the method
body and writes the target state only on records whose current state has
an allowed transition to the target; other records are left untouched. -/
def wfTransition (target : PState) (body : Purchase → Purchase) (p : Purchase) :
    Purchase :=
  if (p.state, target) ∈ purchaseTransitions then { body p with state := target }
  else p

/-- Function `Purchase.cancel`: workflow transition to `cancel`, storing the amount
caches on the transitioned records. -/
def cancelP (taxOf : Purchase → ℚ) (p : Purchase) : Purchase :=
  wfTransition PState.cancel (storeCache taxOf) p

/-- Function `Purchase.delete`: cancels first, then fails with the `delete_cancel`
user error unless the purchase ended up cancelled; `ok` is the deleted
record. -/
def deleteP (taxOf : Purchase → ℚ) (p : Purchase) : Except String Purchase :=
  let p1 := cancelP taxOf p
  if p1.state ≠ PState.cancel then Except.error "delete_cancel"
  else Except.ok p1

/-- Ids of the invoice lines of the purchase's recreated invoices
(the `skip_ids` of `PurchaseLine.get_invoice_line`). -/
def recreatedInvoiceLineIds (p : Purchase) : List Nat :=
  (p.invoicesRecreated.map Invoice.lineIds).flatten

/-- Quantity base of `PurchaseLine.get_invoice_line` for a `line`-kind
line: the full ordered quantity for the `order` method, product-less or
service lines, otherwise the received quantity summed over done moves. -/
def invoiceQtyBase (p : Purchase) (l : PurchaseLine) : ℚ :=
  let serviceOrNoProduct : Bool :=
    match l.product with
    | Option.none => true
    | some prod => decide (prod.ptype = ProductType.service)
  if p.invoiceMethod = InvoiceMethod.order ∨ serviceOrNoProduct = true then
    |l.quantity|
  else
    ((l.moves.filter (fun m => decide (m.state = MoveState.done))).map
      (fun m => computeQty m.uom m.quantity l.unit)).sum

/-- Quantity already carried by the line's linked invoice lines, skipping
invoice lines of recreated invoices (`PurchaseLine.get_invoice_line`,
subtraction loop). -/
def linkedInvoiceQty (p : Purchase) (l : PurchaseLine) : ℚ :=
  ((l.invoiceLines.filter (fun il =>
      decide (il.iltype = LineType.line ∧ il.id ∉ recreatedInvoiceLineIds p))).map
    (fun il => computeQty il.unit il.quantity l.unit)).sum

/-- Function `PurchaseLine.get_invoice_line`: list of invoice lines to issue for the
purchase line (ids are assigned by the caller).  Errors are the missing
expense-account user errors. -/
def getInvoiceLine (p : Purchase) (l : PurchaseLine) (ity : InvoiceType) :
    Except String (List InvoiceLine) :=
  if l.ltype ≠ LineType.line then
    if p.invoiceMethod = InvoiceMethod.order ∧ l.invoiceLines = []
        ∧ (((p.lines.all (fun l2 =>
              decide (l2.ltype ≠ LineType.line ∨ 0 ≤ l2.quantity))) = true
            ∧ ity = InvoiceType.inInvoice)
          ∨ ((p.lines.all (fun l2 =>
              decide (l2.ltype ≠ LineType.line ∨ l2.quantity ≤ 0))) = true
            ∧ ity = InvoiceType.inCreditNote)) then
      Except.ok [⟨0, l.ltype, l.unit, 0⟩]
    else Except.ok []
  else if (decide (ity = InvoiceType.inInvoice)) ≠ (decide (0 ≤ l.quantity)) then
    Except.ok []
  else
    let qty := invoiceQtyBase p l - linkedInvoiceQty p l
    if qty ≤ 0 then Except.ok []
    else
      match l.product with
      | some prod =>
        if prod.hasExpenseAccount then Except.ok [⟨0, LineType.line, l.unit, qty⟩]
        else Except.error "missing_account_expense"
      | Option.none =>
        if p.propertyExpense then Except.ok [⟨0, LineType.line, l.unit, qty⟩]
        else Except.error "missing_account_expense_property"

/-- Invoice-line collection loop of `Purchase._get_invoice_line_purchase_line`:
pairs every purchase line with the invoice lines it issues. -/
def collectInvoiceLines (p : Purchase) (ity : InvoiceType) :
    List PurchaseLine → Except String (List (PurchaseLine × List InvoiceLine))
  | [] => Except.ok []
  | l :: rest =>
    match getInvoiceLine p l ity with
    | Except.error e => Except.error e
    | Except.ok specs =>
      match collectInvoiceLines p ity rest with
      | Except.error e => Except.error e
      | Except.ok out => Except.ok ((l, specs) :: out)

/-- Assigns fresh sequential ids to the freshly issued invoice lines,
line by line, starting at the given counter. -/
def assignInvoiceLineIds :
    Nat → List (PurchaseLine × List InvoiceLine) →
    List (PurchaseLine × List InvoiceLine) × Nat
  | n, [] => ([], n)
  | n, (l, specs) :: rest =>
    let withIds := specs.enum.map (fun pr => { pr.2 with id := n + pr.1 })
    let r := assignInvoiceLineIds (n + specs.length) rest
    ((l, withIds) :: r.1, r.2)

/-- Function `Purchase.create_invoice`: no-op under the `manual` method, user error
when the supplier has no payable account, no-op when no line issues
anything; otherwise creates one invoice (in state draft) holding all the
issued invoice lines and links everything up. -/
def createInvoice (ity : InvoiceType) (p : Purchase) : Except String Purchase :=
  if p.invoiceMethod = InvoiceMethod.manual then Except.ok p
  else if p.partyHasPayable = false then Except.error "missing_account_payable"
  else
    match collectInvoiceLines p ity p.lines with
    | Except.error e => Except.error e
    | Except.ok pairs =>
      if pairs.all (fun pr => pr.2.isEmpty) then Except.ok p
      else
        let r := assignInvoiceLineIds p.nextId pairs
        let inv : Invoice :=
          ⟨r.2, InvState.draft, (r.1.map (fun pr => pr.2.map InvoiceLine.id)).flatten⟩
        Except.ok { p with
          lines := r.1.map (fun pr => { pr.1 with
            invoiceLines := pr.1.invoiceLines ++ pr.2 }),
          invoices := p.invoices ++ [inv],
          nextId := r.2 + 1 }

/-- Quantity already carried by the line's linked moves, skipping recreated
moves (`PurchaseLine.get_move`, subtraction loop). -/
def linkedMoveQty (l : PurchaseLine) : ℚ :=
  ((l.moves.filter (fun m => decide (m.id ∉ l.movesRecreated))).map
    (fun m => computeQty m.uom m.quantity l.unit)).sum

/-- Function `PurchaseLine.get_move`: the stock move still to create for the line,
if any (its id is assigned by the caller). -/
def getMove (p : Purchase) (l : PurchaseLine) : Except String (Option Move) :=
  if l.ltype ≠ LineType.line then Except.ok Option.none
  else
    match l.product with
    | Option.none => Except.ok Option.none
    | some prod =>
      if prod.ptype = ProductType.service then Except.ok Option.none
      else
        let qty := |l.quantity| - linkedMoveQty l
        if qty ≤ 0 then Except.ok Option.none
        else if p.partyHasSupplierLocation = false then
          Except.error "supplier_location_required"
        else Except.ok (some ⟨0, MoveState.draft, l.unit, qty⟩)

/-- Direction of `Purchase.create_move`: incoming moves or returns. -/
inductive MoveDir
  | inward | outward
deriving DecidableEq, Repr

/-- Loop of `Purchase.create_move`: lines whose quantity sign does not
match the direction are skipped; for the others the move returned by
`get_move`, when any, is created with a fresh id and linked to the line.
Returns the updated lines, the new id counter and the number of moves
created. -/
def createMovesAux (p : Purchase) (dir : MoveDir) :
    List PurchaseLine → Nat → Except String (List PurchaseLine × Nat × Nat)
  | [], n => Except.ok ([], n, 0)
  | l :: rest, n =>
    if (decide (0 ≤ l.quantity)) ≠ (decide (dir = MoveDir.inward)) then
      match createMovesAux p dir rest n with
      | Except.error e => Except.error e
      | Except.ok (ls, n', c) => Except.ok (l :: ls, n', c)
    else
      match getMove p l with
      | Except.error e => Except.error e
      | Except.ok Option.none =>
        match createMovesAux p dir rest n with
        | Except.error e => Except.error e
        | Except.ok (ls, n', c) => Except.ok (l :: ls, n', c)
      | Except.ok (some mv) =>
        match createMovesAux p dir rest (n + 1) with
        | Except.error e => Except.error e
        | Except.ok (ls, n', c) =>
          Except.ok ({ l with moves := l.moves ++ [{ mv with id := n }] } :: ls,
            n', c + 1)

/-- Function `Purchase.create_move`: creates the outstanding moves of every line in
the given direction; the second component counts the created moves. -/
def createMove (dir : MoveDir) (p : Purchase) : Except String (Purchase × Nat) :=
  match createMovesAux p dir p.lines p.nextId with
  | Except.error e => Except.error e
  | Except.ok (ls, n, c) => Except.ok ({ p with lines := ls, nextId := n }, c)

/-- Modelled from the spec: `Purchase.create_return_shipment` only wraps the
return moves into a framework shipment record; no purchase field changes. -/
def createReturnShipment (p : Purchase) : Purchase := p

/-- Function `Purchase.is_done`: paid-or-manual on the invoice side and received on
the shipment side. -/
def isDone (p : Purchase) : Bool :=
  decide ((p.invoiceState = PInvoiceState.paid ∨ p.invoiceMethod = InvoiceMethod.manual)
    ∧ p.shipmentState = PShipmentState.received)

/-- Per-purchase sub-steps of `Purchase.process`: create both invoice
directions, recompute the invoice state, create incoming and return moves,
wrap returns into a return shipment, recompute the shipment state. -/
def processSubsteps (p : Purchase) : Except String Purchase :=
  match createInvoice InvoiceType.inInvoice p with
  | Except.error e => Except.error e
  | Except.ok p1 =>
    match createInvoice InvoiceType.inCreditNote p1 with
    | Except.error e => Except.error e
    | Except.ok p2 =>
      let p2a := (setInvoiceState p2).1
      match createMove MoveDir.inward p2a with
      | Except.error e => Except.error e
      | Except.ok (p3, _) =>
        match createMove MoveDir.outward p3 with
        | Except.error e => Except.error e
        | Except.ok (p4, retCount) =>
          let p4a := if retCount > 0 then createReturnShipment p4 else p4
          Except.ok (setShipmentState p4a).1

/-- Function `Purchase.process` restricted to one purchase: purchases already done
or cancelled are skipped; otherwise the sub-steps run and the purchase is
marked done exactly when `is_done` holds afterwards. -/
def processOne (p : Purchase) : Except String Purchase :=
  if p.state = PState.done ∨ p.state = PState.cancel then Except.ok p
  else
    match processSubsteps p with
    | Except.error e => Except.error e
    | Except.ok q =>
      Except.ok (if isDone q then { q with state := PState.done } else q)

/-- Outstanding exceptioned linked invoices: cancelled and neither ignored
nor recreated (`HandleInvoiceException.default_ask`). -/
def outstandingExcInvoices (p : Purchase) : List Invoice :=
  p.invoices.filter (fun i => decide (i.state = InvState.cancel ∧ i.id ∉ invSkipIds p))

/-- Classification step of `HandleInvoiceException.transition_handle`:
every linked invoice inside the wizard domain and not yet classified goes
to the recreated set when selected, to the ignored set otherwise. -/
def handleInvoiceClassify (toRecreate domain : List Nat) (p : Purchase) : Purchase :=
  let selected := p.invoices.filter (fun i =>
    decide (i.id ∈ domain ∧ i.id ∉ invSkipIds p))
  { p with
    invoicesIgnored := p.invoicesIgnored
      ++ selected.filter (fun i => decide (i.id ∉ toRecreate)),
    invoicesRecreated := p.invoicesRecreated
      ++ selected.filter (fun i => decide (i.id ∈ toRecreate)) }

/-- Function `HandleInvoiceException.transition_handle`: classify, then re-invoke
processing on the purchase. -/
def handleInvoiceException (toRecreate domain : List Nat) (p : Purchase) :
    Except String Purchase :=
  processOne (handleInvoiceClassify toRecreate domain p)

/-- Outstanding exceptioned moves of one line: cancelled and neither
ignored nor recreated (`HandleShipmentException.default_ask`). -/
def outstandingExcMoves (l : PurchaseLine) : List Move :=
  l.moves.filter (fun m => decide (m.state = MoveState.cancel ∧ m.id ∉ moveSkipIds l))

/-- Classification step of `HandleShipmentException.transition_handle`:
per line, every move inside the wizard domain and not yet classified goes
to the recreated set when selected, to the ignored set otherwise. -/
def handleShipmentClassify (toRecreate domain : List Nat) (p : Purchase) : Purchase :=
  { p with lines := p.lines.map (fun l =>
      let selected := l.moves.filter (fun m =>
        decide (m.id ∈ domain ∧ m.id ∉ l.movesIgnored ∧ m.id ∉ l.movesRecreated))
      { l with
        movesIgnored := l.movesIgnored
          ++ (selected.filter (fun m => decide (m.id ∉ toRecreate))).map Move.id,
        movesRecreated := l.movesRecreated
          ++ (selected.filter (fun m => decide (m.id ∈ toRecreate))).map Move.id }) }

/-- Function `HandleShipmentException.transition_handle`: classify, then re-invoke
processing on the purchase. -/
def handleShipmentException (toRecreate domain : List Nat) (p : Purchase) :
    Except String Purchase :=
  processOne (handleShipmentClassify toRecreate domain p)

/-- Disjointness and linkage invariant of the purchase-level invoice sets:
ignored and recreated ids are disjoint and both are ids of linked invoices. -/
def invInvariant (p : Purchase) : Prop :=
  (∀ x ∈ p.invoicesIgnored.map Invoice.id, x ∉ p.invoicesRecreated.map Invoice.id)
  ∧ (∀ x ∈ p.invoicesIgnored.map Invoice.id, x ∈ p.invoices.map Invoice.id)
  ∧ (∀ x ∈ p.invoicesRecreated.map Invoice.id, x ∈ p.invoices.map Invoice.id)

/-- Disjointness and linkage invariant of the line-level move sets. -/
def moveInvariant (l : PurchaseLine) : Prop :=
  (∀ x ∈ l.movesIgnored, x ∉ l.movesRecreated)
  ∧ (∀ x ∈ l.movesIgnored, x ∈ l.moves.map Move.id)
  ∧ (∀ x ∈ l.movesRecreated, x ∈ l.moves.map Move.id)

/-- Frame relation at the line level: the move classification sets are
untouched and the linked moves only grow. -/
def lineFrame (l l' : PurchaseLine) : Prop :=
  l'.movesIgnored = l.movesIgnored ∧ l'.movesRecreated = l.movesRecreated
  ∧ (∀ m ∈ l.moves, m ∈ l'.moves)

/-- Frame relation of the processing sub-steps: lifecycle state and
invoice method are untouched, the invoice classification sets are
untouched, the linked invoices only grow, and the lines are related
pointwise by `lineFrame`. -/
def stepFrame (p q : Purchase) : Prop :=
  q.state = p.state ∧ q.invoiceMethod = p.invoiceMethod
  ∧ q.invoicesIgnored = p.invoicesIgnored ∧ q.invoicesRecreated = p.invoicesRecreated
  ∧ (∀ i ∈ p.invoices, i ∈ q.invoices)
  ∧ List.Forall₂ lineFrame p.lines q.lines

/-- Function `PurchaseLine.copy`: line duplicates start with no linked moves, no
classified moves and no linked invoice lines. -/
def copyLine (l : PurchaseLine) : PurchaseLine :=
  { l with moves := [], movesIgnored := [], movesRecreated := [],
           invoiceLines := [] }

/-- Function `Purchase.copy`: duplicates restart in draft with no reference, no
derived statuses, no linked invoices and no ignored invoices, and with
every line copied through `PurchaseLine.copy`. -/
def copyPurchase (p : Purchase) : Purchase :=
  { p with state := PState.draft, reference := Option.none,
           invoiceState := PInvoiceState.none, invoices := [],
           invoicesIgnored := [], shipmentState := PShipmentState.none,
           purchaseDate := Option.none, lines := p.lines.map copyLine }

/-- Constant-zero tax function, used for concrete evaluations. -/
def tax0 : Purchase → ℚ := fun _ => 0

/-- A purchase line is invoice-covered when the quantities of its linked,
non-recreated invoice lines reach the quantity base (for `line`-kind
lines), and descriptive lines already carry an invoice line. -/
def invoiceCovered (p : Purchase) (l : PurchaseLine) : Prop :=
  (l.ltype = LineType.line → invoiceQtyBase p l ≤ linkedInvoiceQty p l)
  ∧ (l.ltype ≠ LineType.line → l.invoiceLines ≠ [])

/-- A purchase line is move-covered when the quantities of its linked,
non-recreated moves reach the ordered quantity (whenever a move could be
created at all). -/
def moveCovered (l : PurchaseLine) : Prop :=
  ∀ pr, l.ltype = LineType.line → l.product = some pr →
    pr.ptype ≠ ProductType.service → |l.quantity| ≤ linkedMoveQty l

/-- Reference unit of measure used by the concrete examples. -/
def uomU : Uom := ⟨1⟩

/-- Base purchase record for the concrete examples. -/
def basePurchase : Purchase :=
  { state := PState.draft, reference := Option.none, purchaseDate := Option.none,
    invoiceMethod := InvoiceMethod.order, invoiceState := PInvoiceState.none,
    shipmentState := PShipmentState.none, partyHasPayable := true,
    partyHasSupplierLocation := true, propertyExpense := true,
    currencyRound := id, lines := [], invoices := [], invoicesIgnored := [],
    invoicesRecreated := [], untaxedAmountCache := Option.none,
    taxAmountCache := Option.none, totalAmountCache := Option.none, nextId := 10 }

/-- Service-product line ordering 5 units with no linked move. -/
def lineSvc : PurchaseLine :=
  ⟨1, LineType.line, 5, 1, uomU, some ⟨ProductType.service, true⟩, [], [], [], []⟩

/-- A done move fully covering `lineGoods`. -/
def moveDoneB : Move := ⟨7, MoveState.done, uomU, 1⟩

/-- Goods-product line ordering 1 unit, fully received. -/
def lineGoods : PurchaseLine :=
  ⟨2, LineType.line, 1, 1, uomU, some ⟨ProductType.goods, true⟩, [moveDoneB], [], [], []⟩

/-- Concrete purchase separating the code's shipment-state computation from
claim C2's wording: the service line counts as done for the code but not
for the claim. -/
def pC2 : Purchase :=
  { basePurchase with state := PState.confirmed, lines := [lineSvc, lineGoods] }

/-- A draft purchase with no lines. -/
def pDraft : Purchase := basePurchase

/-- A confirmed purchase with no lines. -/
def pConf : Purchase := { basePurchase with state := PState.confirmed }

/-- A cancelled purchase with no lines. -/
def pCancel : Purchase := { basePurchase with state := PState.cancel }

/-- A `line`-kind line: 2 units at price 3. -/
def lineK : PurchaseLine :=
  ⟨3, LineType.line, 2, 3, uomU, Option.none, [], [], [], []⟩

/-- A `subtotal`-kind line. -/
def subK : PurchaseLine :=
  ⟨4, LineType.subtotal, 0, 0, uomU, Option.none, [], [], [], []⟩

/-- Concrete purchase with a line followed by a subtotal break. -/
def pSub : Purchase := { basePurchase with lines := [lineK, subK] }

/-- A purchase whose stored statuses already match the derived ones. -/
def pSame : Purchase := basePurchase

/-- A purchase whose stored statuses differ from the derived ones. -/
def pDiff : Purchase :=
  { basePurchase with
    invoiceState := PInvoiceState.waiting,
    shipmentState := PShipmentState.waiting }

/-- A manual-method purchase on which the processing sub-steps are a
no-op. -/
def pManual : Purchase := { basePurchase with invoiceMethod := InvoiceMethod.manual }

/-- A cancelled invoice with no lines. -/
def invCancel : Invoice := ⟨1, InvState.cancel, []⟩

/-- A confirmed manual-method purchase carrying one cancelled linked
invoice awaiting disposition. -/
def pExc : Purchase :=
  { basePurchase with
    state := PState.confirmed,
    invoiceMethod := InvoiceMethod.manual, invoices := [invCancel],
    invoiceState := PInvoiceState.exception }

/-- A line with one cancelled move, used by the wizard examples. -/
def lineExc : PurchaseLine :=
  ⟨5, LineType.line, 1, 1, uomU, some ⟨ProductType.goods, true⟩,
    [⟨8, MoveState.cancel, uomU, 1⟩], [], [], []⟩

/-- A confirmed manual-method purchase with one cancelled linked invoice
and one line with a cancelled move. -/
def pExc2 : Purchase :=
  { basePurchase with
    state := PState.confirmed,
    invoiceMethod := InvoiceMethod.manual, invoices := [invCancel],
    lines := [lineExc] }

/-- A `title`-kind line. -/
def titleK : PurchaseLine :=
  ⟨6, LineType.title, 0, 0, uomU, Option.none, [], [], [], []⟩

/-- One step of the subtotal accumulation loop of `PurchaseLine.get_amount`:
add `line` amounts, reset at `subtotal` breaks, skip the rest. -/
def subtotalStep (round : ℚ → ℚ) (acc : ℚ) (l : PurchaseLine) : ℚ :=
  if l.ltype = LineType.line then acc + lineAmount round l
  else if l.ltype = LineType.subtotal then 0
  else acc

/-- C1: `get_invoice_state` returns `exception` iff some active (neither
ignored nor recreated) linked invoice is cancelled; `paid` iff there are
active invoices and all are paid; `waiting` iff there are active invoices,
none cancelled and not all paid; and `none` iff no active invoice exists. -/
theorem c1_invoice_state_characterization (p : Purchase) :
    (getInvoiceState p = PInvoiceState.exception ↔
      ∃ i ∈ activeInvoices p, i.state = InvState.cancel)
    ∧ (getInvoiceState p = PInvoiceState.paid ↔
      activeInvoices p ≠ [] ∧ ∀ i ∈ activeInvoices p, i.state = InvState.paid)
    ∧ (getInvoiceState p = PInvoiceState.waiting ↔
      activeInvoices p ≠ [] ∧ (∃ i ∈ activeInvoices p, i.state ≠ InvState.paid)
        ∧ ∀ i ∈ activeInvoices p, i.state ≠ InvState.cancel)
    ∧ (getInvoiceState p = PInvoiceState.none ↔ activeInvoices p = []) := by
  unfold getInvoiceState
  by_cases hne : activeInvoices p = []
  · simp [hne]
  · cases hany : (activeInvoices p).any (fun i => decide (i.state = InvState.cancel)) with
    | true =>
      have hex : ∃ i ∈ activeInvoices p, i.state = InvState.cancel := by
        simpa using hany
      have hnall : ¬ (activeInvoices p ≠ [] ∧
          ∀ i ∈ activeInvoices p, i.state = InvState.paid) := by
        rintro ⟨-, hall⟩
        obtain ⟨i, hi, hc⟩ := hex
        have hp := hall i hi
        rw [hp] at hc
        exact InvState.noConfusion hc
      have hniw : ¬ (activeInvoices p ≠ [] ∧
          (∃ i ∈ activeInvoices p, i.state ≠ InvState.paid)
          ∧ ∀ i ∈ activeInvoices p, i.state ≠ InvState.cancel) := by
        rintro ⟨-, -, hnc⟩
        obtain ⟨i, hi, hc⟩ := hex
        exact hnc i hi hc
      simp [hne, hany, hex, hnall, hniw]
      obtain ⟨i, hi, hc⟩ := hex
      exact ⟨i, hi, by simp [hc]⟩
    | false =>
      have hnex : ¬ ∃ i ∈ activeInvoices p, i.state = InvState.cancel := by
        simpa using hany
      have hnc : ∀ i ∈ activeInvoices p, i.state ≠ InvState.cancel := by
        intro i hi hc
        exact hnex ⟨i, hi, hc⟩
      cases hall : (activeInvoices p).all (fun i => decide (i.state = InvState.paid)) with
      | true =>
        have hpd : ∀ i ∈ activeInvoices p, i.state = InvState.paid := by
          simpa using hall
        have hnw : ¬ (activeInvoices p ≠ [] ∧
            (∃ i ∈ activeInvoices p, i.state ≠ InvState.paid)
            ∧ ∀ i ∈ activeInvoices p, i.state ≠ InvState.cancel) := by
          rintro ⟨-, ⟨i, hi, hnp⟩, -⟩
          exact hnp (hpd i hi)
        simp [hne, hany, hall, hnex, hpd, hnw]
        exact hpd
      | false =>
        have hnp : ∃ i ∈ activeInvoices p, i.state ≠ InvState.paid := by
          simpa using hall
        have hnall : ¬ (activeInvoices p ≠ [] ∧
            ∀ i ∈ activeInvoices p, i.state = InvState.paid) := by
          rintro ⟨-, hpd⟩
          obtain ⟨i, hi, hq⟩ := hnp
          exact hq (hpd i hi)
        simp [hne, hany, hall, hnex, hnp, hnc, hnall]
        exact hnc

/-- C9: `set_invoice_state` and `set_shipment_state` write the derived
status back only when it differs from the stored one; otherwise the
record is returned unchanged and no write happens. -/
theorem c9_write_only_on_change (p : Purchase) :
    (p.invoiceState = getInvoiceState p → setInvoiceState p = (p, false))
    ∧ (p.invoiceState ≠ getInvoiceState p →
        setInvoiceState p = ({ p with invoiceState := getInvoiceState p }, true))
    ∧ (p.shipmentState = getShipmentState p → setShipmentState p = (p, false))
    ∧ (p.shipmentState ≠ getShipmentState p →
        setShipmentState p = ({ p with shipmentState := getShipmentState p }, true)) := by
  refine ⟨fun h => ?_, fun h => ?_, fun h => ?_, fun h => ?_⟩ <;>
    simp [setInvoiceState, setShipmentState, h]

/-- C9 witness: on a purchase whose stored statuses match the derived ones
no write happens; on one whose stored statuses differ both are written. -/
theorem c9_write_only_on_change_witness :
    setInvoiceState pSame = (pSame, false)
    ∧ setShipmentState pSame = (pSame, false)
    ∧ setInvoiceState pDiff = ({ pDiff with invoiceState := getInvoiceState pDiff }, true)
    ∧ setShipmentState pDiff = ({ pDiff with shipmentState := getShipmentState pDiff }, true) :=
  ⟨(c9_write_only_on_change pSame).1 rfl,
   (c9_write_only_on_change pSame).2.2.1 rfl,
   (c9_write_only_on_change pDiff).2.1 (by decide),
   (c9_write_only_on_change pDiff).2.2.2 (by decide)⟩

/-- C10: a copied purchase restarts in draft with no reference, derived
statuses reset to `none`, no linked and no ignored invoices, and every
copied line has no moves, no classified moves and no invoice lines. -/
theorem c10_copy_resets (p : Purchase) :
    (copyPurchase p).state = PState.draft
    ∧ (copyPurchase p).reference = Option.none
    ∧ (copyPurchase p).invoiceState = PInvoiceState.none
    ∧ (copyPurchase p).shipmentState = PShipmentState.none
    ∧ (copyPurchase p).invoices = []
    ∧ (copyPurchase p).invoicesIgnored = []
    ∧ ∀ l ∈ (copyPurchase p).lines,
        l.moves = [] ∧ l.movesIgnored = [] ∧ l.movesRecreated = []
          ∧ l.invoiceLines = [] := by
  refine ⟨rfl, rfl, rfl, rfl, rfl, rfl, ?_⟩
  intro l hl
  simp only [copyPurchase, List.mem_map] at hl
  obtain ⟨l0, -, rfl⟩ := hl
  exact ⟨rfl, rfl, rfl, rfl⟩

/-- The subtotal loop of `PurchaseLine.get_amount`, run on lines splitting
as `pre ++ self :: post` where no line of `pre` has the subtotal's id,
folds `subtotalStep` over `pre`. -/
theorem subtotalLoop_eq_foldl (round : ℚ → ℚ) (self : PurchaseLine)
    (hty : self.ltype = LineType.subtotal) (pre post : List PurchaseLine)
    (acc : ℚ) (hpre : ∀ l ∈ pre, l.id ≠ self.id) :
    subtotalLoop round self (pre ++ self :: post) acc =
      pre.foldl (subtotalStep round) acc := by
  induction pre generalizing acc with
  | nil =>
    simp only [List.nil_append, List.foldl_nil, subtotalLoop]
    rw [if_neg (by simp [hty]), if_pos hty]
    simp
  | cons l rest ih =>
    have hl : l.id ≠ self.id := hpre l (List.mem_cons_self _ _)
    have hrest : ∀ x ∈ rest, x.id ≠ self.id :=
      fun x hx => hpre x (List.mem_cons_of_mem _ hx)
    by_cases h1 : l.ltype = LineType.line
    · simp only [List.cons_append, subtotalLoop, if_pos h1, List.foldl_cons,
        subtotalStep]
      exact ih _ hrest
    · by_cases h2 : l.ltype = LineType.subtotal
      · simp only [List.cons_append, subtotalLoop, if_neg h1, if_pos h2,
          if_neg hl, List.foldl_cons, subtotalStep]
        exact ih _ hrest
      · simp only [List.cons_append, subtotalLoop, if_neg h1, if_neg h2,
          List.foldl_cons, subtotalStep]
        exact ih _ hrest

/-- Appending one line to the prefix either resets the last break segment
or extends it. -/
theorem sinceLastBreak_append (pre : List PurchaseLine) (l : PurchaseLine) :
    sinceLastBreak (pre ++ [l]) =
      if l.ltype = LineType.subtotal then [] else sinceLastBreak pre ++ [l] := by
  unfold sinceLastBreak
  rw [List.foldl_append]
  simp

/-- The subtotal fold computes the spec's running sum: starting from `acc`
it yields the sum of `line` amounts since the last break, plus `acc` when
no break occurred. -/
theorem foldl_subtotalStep_eq (round : ℚ → ℚ) (pre : List PurchaseLine) :
    ∀ acc : ℚ, pre.foldl (subtotalStep round) acc =
      (if pre.any (fun l => decide (l.ltype = LineType.subtotal)) then 0 else acc)
        + specSubtotalAmount round pre := by
  induction pre using List.reverseRecOn with
  | nil =>
    intro acc
    simp [specSubtotalAmount, sinceLastBreak]
  | append_singleton pre l ih =>
    intro acc
    rw [List.foldl_append]
    by_cases h1 : l.ltype = LineType.line
    · have h2 : l.ltype ≠ LineType.subtotal := by simp [h1]
      simp only [List.foldl_cons, List.foldl_nil, subtotalStep, if_pos h1, ih acc,
        specSubtotalAmount, sinceLastBreak_append, if_neg h2, List.filter_append,
        List.map_append, List.sum_append, List.any_append]
      simp [h1, h2, lineAmount]
      ring
    · by_cases h2 : l.ltype = LineType.subtotal
      · simp only [List.foldl_cons, List.foldl_nil, subtotalStep, if_neg h1,
          if_pos h2, specSubtotalAmount, sinceLastBreak_append, List.any_append]
        simp [h2]
      · simp only [List.foldl_cons, List.foldl_nil, subtotalStep, if_neg h1,
          if_neg h2, ih acc, specSubtotalAmount, sinceLastBreak_append,
          List.filter_append, List.map_append, List.sum_append, List.any_append]
        simp [h1, h2]

/-- C4: a `subtotal` line's computed amount is the sum of the amounts of
the `line`-kind lines preceding it, back to the previous subtotal break;
`title` and `comment` lines have amount zero. -/
theorem c4_subtotal_amount (p : Purchase) (self : PurchaseLine)
    (pre post : List PurchaseLine) (hlines : p.lines = pre ++ self :: post)
    (hty : self.ltype = LineType.subtotal)
    (hpre : ∀ l ∈ pre, l.id ≠ self.id) :
    lineGetAmount p self = specSubtotalAmount p.currencyRound pre
    ∧ ∀ l, l.ltype = LineType.title ∨ l.ltype = LineType.comment →
        lineGetAmount p l = 0 := by
  constructor
  · rw [lineGetAmount, if_neg (by simp [hty]), if_pos hty, hlines,
      subtotalLoop_eq_foldl _ _ hty pre post 0 hpre, foldl_subtotalStep_eq]
    simp
  · intro l hl
    rcases hl with h | h <;> simp [lineGetAmount, h]

/-- C4 witness: on a concrete purchase holding one item line followed by a
subtotal line, the subtotal's amount is the spec's running sum and a title
line's amount is zero. -/
theorem c4_subtotal_amount_witness :
    lineGetAmount pSub subK = specSubtotalAmount pSub.currencyRound [lineK]
    ∧ lineGetAmount pSub titleK = 0 :=
  ⟨(c4_subtotal_amount pSub subK [lineK] [] rfl rfl (by decide)).1,
   (c4_subtotal_amount pSub subK [lineK] [] rfl rfl (by decide)).2 titleK
     (Or.inl rfl)⟩

/-- When every move is done or skipped, the move-done loop completes and
subtracts every move's converted quantity. -/
theorem moveDoneLoop_all (l : PurchaseLine) (ms : List Move) (q : ℚ)
    (h : ∀ m ∈ ms, m.state = MoveState.done ∨ m.id ∈ moveSkipIds l) :
    moveDoneLoop l ms q =
      (true, q - (ms.map (fun m => computeQty m.uom m.quantity l.unit)).sum) := by
  induction ms generalizing q with
  | nil => simp [moveDoneLoop]
  | cons m rest ih =>
    have hm := h m (List.mem_cons_self _ _)
    have hcond : ¬ (m.state ≠ MoveState.done ∧ m.id ∉ moveSkipIds l) := by
      rcases hm with h1 | h1
      · exact fun hc => hc.1 h1
      · exact fun hc => hc.2 h1
    rw [moveDoneLoop, if_neg hcond,
      ih _ (fun x hx => h x (List.mem_cons_of_mem _ hx))]
    simp [sub_sub]

/-- When some move is neither done nor skipped, the move-done loop reports
the line as not done. -/
theorem moveDoneLoop_break (l : PurchaseLine) (ms : List Move) (q : ℚ)
    (h : ¬ ∀ m ∈ ms, m.state = MoveState.done ∨ m.id ∈ moveSkipIds l) :
    (moveDoneLoop l ms q).1 = false := by
  induction ms generalizing q with
  | nil => exact absurd (by simp) h
  | cons m rest ih =>
    by_cases hm : m.state = MoveState.done ∨ m.id ∈ moveSkipIds l
    · have hcond : ¬ (m.state ≠ MoveState.done ∧ m.id ∉ moveSkipIds l) := by
        rcases hm with h1 | h1
        · exact fun hc => hc.1 h1
        · exact fun hc => hc.2 h1
      rw [moveDoneLoop, if_neg hcond]
      apply ih
      intro hall
      exact h (fun x hx => by
        rcases List.mem_cons.1 hx with rfl | hx'
        · exact hm
        · exact hall x hx')
    · have hcond : m.state ≠ MoveState.done ∧ m.id ∉ moveSkipIds l := by
        push_neg at hm
        exact hm
      rw [moveDoneLoop, if_pos hcond]

/-- Function `get_move_done` agrees with the amended claim's per-line completeness
test. -/
theorem getMoveDone_eq_amended (l : PurchaseLine) :
    getMoveDone l = amendedMoveDone l := by
  unfold getMoveDone amendedMoveDone
  cases hp : l.product with
  | none => rfl
  | some prod =>
    by_cases hs : prod.ptype = ProductType.service
    · simp [hs]
    · simp only [if_neg hs]
      by_cases hall : ∀ m ∈ l.moves, m.state = MoveState.done ∨ m.id ∈ moveSkipIds l
      · rw [moveDoneLoop_all l l.moves l.quantity hall]
        simp only
        rw [if_pos trivial, decide_eq_decide]
        constructor
        · intro hle
          exact ⟨hall, by linarith [not_lt.1 hle]⟩
        · intro hc
          have := hc.2
          intro hgt
          linarith
      · have hb := moveDoneLoop_break l l.moves l.quantity hall
        rw [hb]
        simp only [Bool.false_eq_true, if_false]
        exact (decide_eq_false (fun hc => hall hc.1)).symm

/-- C2 (amended): `get_shipment_state` agrees with the amended per-line
completeness rule for every purchase. -/
theorem c2_amended_shipment_state (p : Purchase) :
    getShipmentState p = amendedShipmentState p := by
  have hfun : getMoveDone = amendedMoveDone := funext getMoveDone_eq_amended
  unfold getShipmentState amendedShipmentState
  rw [hfun]
  by_cases h : purchaseMoves p = [] <;> simp [h]

/-- C2 counterexample: on a purchase with a fully received goods line and
a service line with no moves, the code reports `received` while the claim
as stated predicts `waiting` (the service line has no non-skipped done
moves covering its ordered quantity). -/
theorem c2_claim_counterexample :
    getShipmentState pC2 = PShipmentState.received
    ∧ claimShipmentState pC2 = PShipmentState.waiting := by
  constructor
  · norm_num [getShipmentState, purchaseMoves, pC2, basePurchase, lineSvc,
      lineGoods, moveDoneB, uomU, getMoveException, getMoveDone, moveDoneLoop,
      moveSkipIds, computeQty]
    exact fun h => MoveState.noConfusion h
  · norm_num [claimShipmentState, purchaseMoves, pC2, basePurchase, lineSvc,
      lineGoods, moveDoneB, uomU, getMoveException, claimMoveDone, moveSkipIds,
      computeQty]
    exact fun h => MoveState.noConfusion h

/-- C3: the computed total equals untaxed plus tax — on the recompute path
by construction, on the cached path because the cache triple is
consistent — and `store_cache` always stores a consistent triple. -/
theorem c3_total_amount_sum (taxOf : Purchase → ℚ) (p : Purchase)
    (h : cacheConsistent p) :
    (getAmount taxOf p).2.2 = (getAmount taxOf p).1 + (getAmount taxOf p).2.1
    ∧ cacheConsistent (storeCache taxOf p) := by
  have key : (getAmount taxOf p).2.2
      = (getAmount taxOf p).1 + (getAmount taxOf p).2.1 := by
    unfold getAmount
    split
    next hc =>
      obtain ⟨-, h1, h2, h3⟩ := hc
      obtain ⟨u, hu⟩ := Option.isSome_iff_exists.1 h1
      obtain ⟨t, ht⟩ := Option.isSome_iff_exists.1 h2
      obtain ⟨tot, htot⟩ := Option.isSome_iff_exists.1 h3
      unfold cacheConsistent at h
      rw [hu, ht, htot] at h ⊢
      simpa using h
    next => rfl
  exact ⟨key, key⟩

/-- C3 witness: on a purchase with unset caches the hypothesis holds
trivially and the theorem applies. -/
theorem c3_total_amount_sum_witness :
    (getAmount tax0 basePurchase).2.2
      = (getAmount tax0 basePurchase).1 + (getAmount tax0 basePurchase).2.1
    ∧ cacheConsistent (storeCache tax0 basePurchase) :=
  c3_total_amount_sum tax0 basePurchase trivial

/-- A purchase whose state has no transition to `cancel` is left untouched
by `Purchase.cancel`. -/
theorem cancelP_not_allowed (taxOf : Purchase → ℚ) (p : Purchase)
    (h : (p.state, PState.cancel) ∉ purchaseTransitions) :
    cancelP taxOf p = p := by
  unfold cancelP wfTransition
  rw [if_neg h]

/-- A purchase whose state allows the cancel transition gets its caches
stored and its state set to `cancel`. -/
theorem cancelP_allowed (taxOf : Purchase → ℚ) (p : Purchase)
    (h : (p.state, PState.cancel) ∈ purchaseTransitions) :
    cancelP taxOf p = { storeCache taxOf p with state := PState.cancel } := by
  unfold cancelP wfTransition
  rw [if_pos h]

/-- C5 counterexample: deleting a draft purchase succeeds — `delete`
auto-cancels it first — while the claim predicts a user error for any
purchase not already in `cancel`. -/
theorem c5_claim_counterexample :
    pDraft.state = PState.draft
    ∧ deleteP tax0 pDraft = Except.ok (cancelP tax0 pDraft) :=
  ⟨rfl, rfl⟩

/-- C5 (amended): deleting a purchase whose state has no cancel transition
(`confirmed`, `done`) fails with the `delete_cancel` user error and leaves
the record unchanged; deleting a draft, quotation or cancelled purchase
succeeds (auto-cancelling first when allowed); deleting an
already-cancelled purchase deletes it unchanged. -/
theorem c5_amended_delete (taxOf : Purchase → ℚ) (p : Purchase) :
    ((p.state = PState.confirmed ∨ p.state = PState.done) →
      deleteP taxOf p = Except.error "delete_cancel" ∧ cancelP taxOf p = p)
    ∧ ((p.state = PState.draft ∨ p.state = PState.quotation
        ∨ p.state = PState.cancel) →
      deleteP taxOf p = Except.ok (cancelP taxOf p))
    ∧ (p.state = PState.cancel →
      deleteP taxOf p = Except.ok p ∧ cancelP taxOf p = p) := by
  refine ⟨?_, ?_, ?_⟩
  · intro h
    have hns : (p.state, PState.cancel) ∉ purchaseTransitions := by
      rcases h with h | h <;> (rw [h]; decide)
    have hc := cancelP_not_allowed taxOf p hns
    have hne : (cancelP taxOf p).state ≠ PState.cancel := by
      rw [hc]
      rcases h with h | h <;> (rw [h]; decide)
    refine ⟨?_, hc⟩
    simp only [deleteP]
    rw [if_pos hne]
  · intro h
    rcases h with h | h | h
    · have hs : (p.state, PState.cancel) ∈ purchaseTransitions := by
        rw [h]; decide
      have hc := cancelP_allowed taxOf p hs
      have heq : (cancelP taxOf p).state = PState.cancel := by rw [hc]
      simp only [deleteP]
      rw [if_neg (by simp [heq])]
    · have hs : (p.state, PState.cancel) ∈ purchaseTransitions := by
        rw [h]; decide
      have hc := cancelP_allowed taxOf p hs
      have heq : (cancelP taxOf p).state = PState.cancel := by rw [hc]
      simp only [deleteP]
      rw [if_neg (by simp [heq])]
    · have hns : (p.state, PState.cancel) ∉ purchaseTransitions := by
        rw [h]; decide
      have hc := cancelP_not_allowed taxOf p hns
      have heq : (cancelP taxOf p).state = PState.cancel := by rw [hc, h]
      simp only [deleteP]
      rw [if_neg (by simp [heq])]
  · intro h
    have hns : (p.state, PState.cancel) ∉ purchaseTransitions := by
      rw [h]; decide
    have hc := cancelP_not_allowed taxOf p hns
    have heq : (cancelP taxOf p).state = PState.cancel := by rw [hc, h]
    refine ⟨?_, hc⟩
    simp only [deleteP]
    rw [if_neg (by simp [heq]), hc]

/-- C5 witness: a concrete confirmed purchase cannot be deleted, while a
concrete cancelled purchase is deleted unchanged. -/
theorem c5_amended_delete_witness :
    (deleteP tax0 pConf = Except.error "delete_cancel" ∧ cancelP tax0 pConf = pConf)
    ∧ deleteP tax0 pCancel = Except.ok (cancelP tax0 pCancel)
    ∧ (deleteP tax0 pCancel = Except.ok pCancel ∧ cancelP tax0 pCancel = pCancel) :=
  ⟨(c5_amended_delete tax0 pConf).1 (Or.inl rfl),
   (c5_amended_delete tax0 pCancel).2.1 (Or.inr (Or.inr rfl)),
   (c5_amended_delete tax0 pCancel).2.2 rfl⟩

/-- Function `lineFrame` is reflexive. -/
theorem lineFrame_refl (l : PurchaseLine) : lineFrame l l :=
  ⟨rfl, rfl, fun _ h => h⟩

/-- Function `lineFrame` holds pointwise on any list against itself. -/
theorem forall₂_lineFrame_refl (ls : List PurchaseLine) :
    List.Forall₂ lineFrame ls ls :=
  List.forall₂_same.2 (fun l _ => lineFrame_refl l)

/-- Function `lineFrame` composes transitively along two pointwise relations. -/
theorem forall₂_lineFrame_trans {a b c : List PurchaseLine}
    (h1 : List.Forall₂ lineFrame a b) (h2 : List.Forall₂ lineFrame b c) :
    List.Forall₂ lineFrame a c := by
  induction h1 generalizing c with
  | nil => cases h2; exact List.Forall₂.nil
  | cons hl hrest ih =>
    cases h2 with
    | cons hl' hrest' =>
      exact List.Forall₂.cons
        ⟨hl'.1.trans hl.1, hl'.2.1.trans hl.2.1,
          fun m hm => hl'.2.2 m (hl.2.2 m hm)⟩ (ih hrest')

/-- Every member of the right list of a pointwise `lineFrame` relation has
a counterpart on the left. -/
theorem forall₂_lineFrame_mem_right {a b : List PurchaseLine}
    (h : List.Forall₂ lineFrame a b) :
    ∀ l' ∈ b, ∃ l ∈ a, lineFrame l l' := by
  induction h with
  | nil => intro l' h'; cases h'
  | cons hl hrest ih =>
    intro l' h'
    rcases List.mem_cons.1 h' with rfl | h'
    · exact ⟨_, List.mem_cons_self _ _, hl⟩
    · obtain ⟨l, hla, hlf⟩ := ih l' h'
      exact ⟨l, List.mem_cons_of_mem _ hla, hlf⟩

/-- Function `stepFrame` is reflexive. -/
theorem stepFrame_refl (p : Purchase) : stepFrame p p :=
  ⟨rfl, rfl, rfl, rfl, fun _ h => h, forall₂_lineFrame_refl p.lines⟩

/-- Function `stepFrame` is transitive. -/
theorem stepFrame_trans {p q r : Purchase} (h1 : stepFrame p q)
    (h2 : stepFrame q r) : stepFrame p r :=
  ⟨h2.1.trans h1.1, h2.2.1.trans h1.2.1, h2.2.2.1.trans h1.2.2.1,
    h2.2.2.2.1.trans h1.2.2.2.1,
    fun i hi => h2.2.2.2.2.1 i (h1.2.2.2.2.1 i hi),
    forall₂_lineFrame_trans h1.2.2.2.2.2 h2.2.2.2.2.2⟩

/-- The collection loop pairs exactly the lines it was given. -/
theorem collectInvoiceLines_fst (p : Purchase) (ity : InvoiceType) :
    ∀ (ls : List PurchaseLine) (pairs : List (PurchaseLine × List InvoiceLine)),
      collectInvoiceLines p ity ls = Except.ok pairs → pairs.map Prod.fst = ls := by
  intro ls
  induction ls with
  | nil =>
    intro pairs h
    simp only [collectInvoiceLines] at h
    cases h
    rfl
  | cons l rest ih =>
    intro pairs h
    simp only [collectInvoiceLines] at h
    cases hg : getInvoiceLine p l ity with
    | error e => rw [hg] at h; cases h
    | ok specs =>
      rw [hg] at h
      cases hc : collectInvoiceLines p ity rest with
      | error e => rw [hc] at h; cases h
      | ok out =>
        rw [hc] at h
        cases h
        simp [ih out hc]

/-- Assigning ids keeps the paired lines unchanged. -/
theorem assignInvoiceLineIds_fst :
    ∀ (n : Nat) (pairs : List (PurchaseLine × List InvoiceLine)),
      (assignInvoiceLineIds n pairs).1.map Prod.fst = pairs.map Prod.fst := by
  intro n pairs
  induction pairs generalizing n with
  | nil => rfl
  | cons pr rest ih =>
    simp only [assignInvoiceLineIds, List.map_cons]
    rw [ih (n + pr.2.length)]

/-- Appending freshly issued invoice lines to each paired line is a
`lineFrame` step. -/
theorem forall₂_lineFrame_attach (pairs : List (PurchaseLine × List InvoiceLine)) :
    List.Forall₂ lineFrame (pairs.map Prod.fst)
      (pairs.map (fun pr => { pr.1 with invoiceLines := pr.1.invoiceLines ++ pr.2 })) := by
  induction pairs with
  | nil => exact List.Forall₂.nil
  | cons pr rest ih =>
    exact List.Forall₂.cons ⟨rfl, rfl, fun m hm => hm⟩ ih

/-- Function `create_invoice` preserves the processing frame. -/
theorem createInvoice_frame (ity : InvoiceType) (p q : Purchase)
    (h : createInvoice ity p = Except.ok q) : stepFrame p q := by
  unfold createInvoice at h
  by_cases hm : p.invoiceMethod = InvoiceMethod.manual
  · rw [if_pos hm] at h
    cases h
    exact stepFrame_refl _
  · rw [if_neg hm] at h
    by_cases hpay : p.partyHasPayable = false
    · rw [if_pos hpay] at h
      cases h
    · rw [if_neg hpay] at h
      cases hc : collectInvoiceLines p ity p.lines with
      | error e => rw [hc] at h; cases h
      | ok pairs =>
        rw [hc] at h
        dsimp only at h
        by_cases hemp : pairs.all (fun pr => pr.2.isEmpty) = true
        · rw [if_pos hemp] at h
          cases h
          exact stepFrame_refl _
        · rw [if_neg hemp] at h
          cases h
          refine ⟨rfl, rfl, rfl, rfl, fun i hi => List.mem_append_left _ hi, ?_⟩
          have h1 := forall₂_lineFrame_attach (assignInvoiceLineIds p.nextId pairs).1
          rw [assignInvoiceLineIds_fst, collectInvoiceLines_fst p ity p.lines pairs hc]
            at h1
          exact h1

/-- The move-creation loop preserves the line frame. -/
theorem createMovesAux_frame (p : Purchase) (dir : MoveDir) :
    ∀ (ls : List PurchaseLine) (n : Nat) (out : List PurchaseLine × Nat × Nat),
      createMovesAux p dir ls n = Except.ok out →
        List.Forall₂ lineFrame ls out.1 := by
  intro ls
  induction ls with
  | nil =>
    intro n out h
    simp only [createMovesAux] at h
    cases h
    exact List.Forall₂.nil
  | cons l rest ih =>
    intro n out h
    simp only [createMovesAux] at h
    split at h
    · cases hr : createMovesAux p dir rest n with
      | error e => rw [hr] at h; cases h
      | ok o =>
        rw [hr] at h
        obtain ⟨ls', n', c⟩ := o
        dsimp only at h
        cases h
        exact List.Forall₂.cons (lineFrame_refl l) (ih n _ hr)
    · cases hg : getMove p l with
      | error e => rw [hg] at h; cases h
      | ok mv =>
        rw [hg] at h
        cases mv with
        | none =>
          cases hr : createMovesAux p dir rest n with
          | error e => rw [hr] at h; cases h
          | ok o =>
            rw [hr] at h
            obtain ⟨ls', n', c⟩ := o
            dsimp only at h
            cases h
            exact List.Forall₂.cons (lineFrame_refl l) (ih n _ hr)
        | some mv =>
          cases hr : createMovesAux p dir rest (n + 1) with
          | error e => rw [hr] at h; cases h
          | ok o =>
            rw [hr] at h
            obtain ⟨ls', n', c⟩ := o
            dsimp only at h
            cases h
            refine List.Forall₂.cons ⟨rfl, rfl, fun m hm => ?_⟩ (ih (n + 1) _ hr)
            exact List.mem_append_left _ hm

/-- Function `create_move` preserves the processing frame. -/
theorem createMove_frame (dir : MoveDir) (p q : Purchase) (c : Nat)
    (h : createMove dir p = Except.ok (q, c)) : stepFrame p q := by
  unfold createMove at h
  cases hr : createMovesAux p dir p.lines p.nextId with
  | error e => rw [hr] at h; cases h
  | ok o =>
    rw [hr] at h
    obtain ⟨ls, n, cnt⟩ := o
    dsimp only at h
    cases h
    exact ⟨rfl, rfl, rfl, rfl, fun i hi => hi, createMovesAux_frame p dir _ _ _ hr⟩

/-- Rewriting the stored invoice status preserves the processing frame. -/
theorem setInvoiceState_frame (p : Purchase) :
    stepFrame p (setInvoiceState p).1 := by
  by_cases h : p.invoiceState ≠ getInvoiceState p
  · simp only [setInvoiceState, if_pos h]
    exact ⟨rfl, rfl, rfl, rfl, fun _ hh => hh, forall₂_lineFrame_refl p.lines⟩
  · simp only [setInvoiceState, if_neg h]
    exact stepFrame_refl p

/-- Rewriting the stored shipment status preserves the processing frame. -/
theorem setShipmentState_frame (p : Purchase) :
    stepFrame p (setShipmentState p).1 := by
  by_cases h : p.shipmentState ≠ getShipmentState p
  · simp only [setShipmentState, if_pos h]
    exact ⟨rfl, rfl, rfl, rfl, fun _ hh => hh, forall₂_lineFrame_refl p.lines⟩
  · simp only [setShipmentState, if_neg h]
    exact stepFrame_refl p

/-- The whole processing sub-step chain preserves the frame. -/
theorem processSubsteps_frame (p q : Purchase)
    (h : processSubsteps p = Except.ok q) : stepFrame p q := by
  unfold processSubsteps at h
  cases h1 : createInvoice InvoiceType.inInvoice p with
  | error e => rw [h1] at h; cases h
  | ok p1 =>
    rw [h1] at h
    dsimp only at h
    cases h2 : createInvoice InvoiceType.inCreditNote p1 with
    | error e => rw [h2] at h; cases h
    | ok p2 =>
      rw [h2] at h
      dsimp only at h
      cases h3 : createMove MoveDir.inward (setInvoiceState p2).1 with
      | error e => rw [h3] at h; cases h
      | ok o3 =>
        rw [h3] at h
        obtain ⟨p3, c3⟩ := o3
        dsimp only at h
        cases h4 : createMove MoveDir.outward p3 with
        | error e => rw [h4] at h; cases h
        | ok o4 =>
          rw [h4] at h
          obtain ⟨p4, c4⟩ := o4
          dsimp only at h
          cases h
          have f1 := createInvoice_frame _ _ _ h1
          have f2 := createInvoice_frame _ _ _ h2
          have f2a := setInvoiceState_frame p2
          have f3 := createMove_frame _ _ _ _ h3
          have f4 := createMove_frame _ _ _ _ h4
          have f5 : stepFrame p4 (setShipmentState (if c4 > 0
              then createReturnShipment p4 else p4)).1 := by
            split
            · exact setShipmentState_frame p4
            · exact setShipmentState_frame p4
          exact stepFrame_trans f1 (stepFrame_trans f2 (stepFrame_trans f2a
            (stepFrame_trans f3 (stepFrame_trans f4 f5))))

/-- Function `process` on one purchase preserves the invoice classification sets,
only grows the linked invoices, and relates the lines by `lineFrame`. -/
theorem processOne_frame (p r : Purchase) (h : processOne p = Except.ok r) :
    r.invoicesIgnored = p.invoicesIgnored
    ∧ r.invoicesRecreated = p.invoicesRecreated
    ∧ (∀ i ∈ p.invoices, i ∈ r.invoices)
    ∧ List.Forall₂ lineFrame p.lines r.lines := by
  unfold processOne at h
  split at h
  · cases h
    exact ⟨rfl, rfl, fun _ hi => hi, forall₂_lineFrame_refl _⟩
  · cases hs : processSubsteps p with
    | error e => rw [hs] at h; cases h
    | ok q =>
      rw [hs] at h
      dsimp only at h
      cases h
      have f := processSubsteps_frame p q hs
      split
      · exact ⟨f.2.2.1, f.2.2.2.1, f.2.2.2.2.1, f.2.2.2.2.2⟩
      · exact ⟨f.2.2.1, f.2.2.2.1, f.2.2.2.2.1, f.2.2.2.2.2⟩

/-- C6: when the sub-steps of `process` succeed on a purchase that is not
yet done or cancelled, the purchase is marked `done` exactly when its
recomputed invoice state is `paid` or its invoice method is `manual`, and
its recomputed shipment state is `received`; otherwise it keeps its prior
lifecycle state. -/
theorem c6_process_marks_done (p q : Purchase) (hd : p.state ≠ PState.done)
    (hc : p.state ≠ PState.cancel) (hsub : processSubsteps p = Except.ok q) :
    (∀ r, processOne p = Except.ok r →
      (r.state = PState.done ↔
        (q.invoiceState = PInvoiceState.paid ∨ q.invoiceMethod = InvoiceMethod.manual)
          ∧ q.shipmentState = PShipmentState.received))
    ∧ (isDone q = false → processOne p = Except.ok q ∧ q.state = p.state)
    ∧ (isDone q = true → processOne p = Except.ok { q with state := PState.done }) := by
  have hstate : q.state = p.state := (processSubsteps_frame p q hsub).1
  have hpo : processOne p
      = Except.ok (if isDone q then { q with state := PState.done } else q) := by
    unfold processOne
    rw [if_neg (not_or.mpr ⟨hd, hc⟩), hsub]
  refine ⟨?_, ?_, ?_⟩
  · intro r hr
    rw [hpo] at hr
    cases hr
    by_cases hid : isDone q = true
    · rw [if_pos hid]
      unfold isDone at hid
      exact iff_of_true rfl (of_decide_eq_true hid)
    · rw [if_neg hid]
      apply iff_of_false
      · rw [hstate]; exact hd
      · unfold isDone at hid
        exact of_decide_eq_false (Bool.of_not_eq_true hid)
  · intro hid
    rw [hpo, if_neg (by rw [hid]; exact Bool.false_ne_true)]
    exact ⟨rfl, hstate⟩
  · intro hid
    rw [hpo, if_pos hid]

/-- C6 witness: the sub-steps are a no-op on a fresh manual-method draft
purchase, which is then left in its prior state. -/
theorem c6_process_marks_done_witness :
    processOne pManual = Except.ok pManual ∧ pManual.state = pManual.state :=
  (c6_process_marks_done pManual pManual (by decide) (by decide) rfl).2.1 rfl

/-- A covered purchase line issues no invoice line. -/
theorem getInvoiceLine_covered (p : Purchase) (l : PurchaseLine)
    (ity : InvoiceType) (h : invoiceCovered p l) :
    getInvoiceLine p l ity = Except.ok [] := by
  by_cases hl : l.ltype = LineType.line
  · by_cases hdir : decide (ity = InvoiceType.inInvoice) = decide (0 ≤ l.quantity)
    · have hq : invoiceQtyBase p l - linkedInvoiceQty p l ≤ 0 :=
        sub_nonpos.mpr (h.1 hl)
      simp [getInvoiceLine, hl, hdir, hq]
    · simp [getInvoiceLine, hl, hdir]
  · have hni : l.invoiceLines ≠ [] := h.2 hl
    simp [getInvoiceLine, hl, hni]

/-- When no line issues anything, the collection loop returns every line
paired with an empty list. -/
theorem collectInvoiceLines_covered (p : Purchase) (ity : InvoiceType) :
    ∀ ls : List PurchaseLine,
      (∀ l ∈ ls, getInvoiceLine p l ity = Except.ok []) →
      collectInvoiceLines p ity ls
        = Except.ok (ls.map (fun l => (l, []))) := by
  intro ls
  induction ls with
  | nil => intro _; rfl
  | cons l rest ih =>
    intro h
    have hl := h l (List.mem_cons_self _ _)
    have hr := ih (fun x hx => h x (List.mem_cons_of_mem _ hx))
    simp only [collectInvoiceLines, hl, hr, List.map_cons]

/-- Function `create_invoice` is a no-op under the manual method, or when the party
has a payable account and no line issues anything. -/
theorem createInvoice_noop (ity : InvoiceType) (p : Purchase)
    (h : p.invoiceMethod = InvoiceMethod.manual
      ∨ (p.partyHasPayable = true
          ∧ ∀ l ∈ p.lines, getInvoiceLine p l ity = Except.ok [])) :
    createInvoice ity p = Except.ok p := by
  rcases h with h | ⟨hpay, hall⟩
  · simp [createInvoice, h]
  · by_cases hm : p.invoiceMethod = InvoiceMethod.manual
    · simp [createInvoice, hm]
    · have hcoll := collectInvoiceLines_covered p ity p.lines hall
      simp [createInvoice, hm, hpay, hcoll, List.all_eq_true]

/-- A covered purchase line needs no further stock move. -/
theorem getMove_covered (p : Purchase) (l : PurchaseLine) (h : moveCovered l) :
    getMove p l = Except.ok Option.none := by
  by_cases hl : l.ltype = LineType.line
  · cases hp : l.product with
    | none => simp [getMove, hl, hp]
    | some prod =>
      by_cases hs : prod.ptype = ProductType.service
      · simp [getMove, hl, hp, hs]
      · have hq : |l.quantity| - linkedMoveQty l ≤ 0 :=
          sub_nonpos.mpr (h prod hl hp hs)
        simp [getMove, hl, hp, hs, hq]
  · simp [getMove, hl]

/-- When no line needs a move, the move-creation loop changes nothing. -/
theorem createMovesAux_noop (p : Purchase) (dir : MoveDir) :
    ∀ (ls : List PurchaseLine) (n : Nat),
      (∀ l ∈ ls, getMove p l = Except.ok Option.none) →
      createMovesAux p dir ls n = Except.ok (ls, n, 0) := by
  intro ls
  induction ls with
  | nil => intro n _; rfl
  | cons l rest ih =>
    intro n h
    have hl := h l (List.mem_cons_self _ _)
    have hr := ih n (fun x hx => h x (List.mem_cons_of_mem _ hx))
    by_cases hsign : (decide (0 ≤ l.quantity)) ≠ (decide (dir = MoveDir.inward))
    · simp only [createMovesAux, if_pos hsign, hr]
    · simp only [createMovesAux, if_neg hsign, hl, hr]

/-- When no line needs a move, `create_move` creates nothing. -/
theorem createMove_noop (dir : MoveDir) (p : Purchase)
    (h : ∀ l ∈ p.lines, getMove p l = Except.ok Option.none) :
    createMove dir p = Except.ok (p, 0) := by
  unfold createMove
  rw [createMovesAux_noop p dir p.lines p.nextId h]

/-- Function `set_invoice_state` always produces the record carrying the derived
status (a no-op write when it already matches). -/
theorem setInvoiceState_fst (p : Purchase) :
    (setInvoiceState p).1 = { p with invoiceState := getInvoiceState p } := by
  by_cases h : p.invoiceState ≠ getInvoiceState p
  · simp only [setInvoiceState, if_pos h]
  · simp only [setInvoiceState, if_neg h]
    have heq : p.invoiceState = getInvoiceState p := not_not.1 h
    rw [← heq]

/-- Function `set_shipment_state` always produces the record carrying the derived
status. -/
theorem setShipmentState_fst (p : Purchase) :
    (setShipmentState p).1 = { p with shipmentState := getShipmentState p } := by
  by_cases h : p.shipmentState ≠ getShipmentState p
  · simp only [setShipmentState, if_pos h]
  · simp only [setShipmentState, if_neg h]
    have heq : p.shipmentState = getShipmentState p := not_not.1 h
    rw [← heq]

/-- Projection facts of the status-writing steps. -/
theorem setInvoiceState_invoices (p : Purchase) :
    (setInvoiceState p).1.invoices = p.invoices := by rw [setInvoiceState_fst]

/-- The invoice-status write keeps the lines. -/
theorem setInvoiceState_lines (p : Purchase) :
    (setInvoiceState p).1.lines = p.lines := by rw [setInvoiceState_fst]

/-- The shipment-status write keeps the invoices. -/
theorem setShipmentState_invoices (p : Purchase) :
    (setShipmentState p).1.invoices = p.invoices := by rw [setShipmentState_fst]

/-- The shipment-status write keeps the lines. -/
theorem setShipmentState_lines (p : Purchase) :
    (setShipmentState p).1.lines = p.lines := by rw [setShipmentState_fst]

/-- Function `get_invoice_line` only depends on the invoice method, the lines, the
expense-property flag and the recreated invoices. -/
theorem getInvoiceLine_fields (p p' : Purchase) (l : PurchaseLine)
    (ity : InvoiceType) (h1 : p'.invoiceMethod = p.invoiceMethod)
    (h2 : p'.lines = p.lines) (h3 : p'.propertyExpense = p.propertyExpense)
    (h4 : p'.invoicesRecreated = p.invoicesRecreated) :
    getInvoiceLine p' l ity = getInvoiceLine p l ity := by
  unfold getInvoiceLine invoiceQtyBase linkedInvoiceQty recreatedInvoiceLineIds
  rw [h1, h2, h3, h4]

/-- With an empty recreate selection nothing is added to the recreated
set. -/
theorem handleInvoiceClassify_empty_recreated (d : List Nat) (p : Purchase) :
    (handleInvoiceClassify [] d p).invoicesRecreated = p.invoicesRecreated := by
  simp [handleInvoiceClassify]

/-- With the wizard's own domain, the classified invoices are exactly the
outstanding exceptioned ones. -/
theorem classify_empty_selected (p : Purchase)
    (hids : (p.invoices.map Invoice.id).Nodup) :
    p.invoices.filter (fun i =>
        decide (i.id ∈ (outstandingExcInvoices p).map Invoice.id
          ∧ i.id ∉ invSkipIds p))
      = outstandingExcInvoices p := by
  conv_rhs => rw [outstandingExcInvoices]
  apply List.filter_congr
  intro i hi
  rw [decide_eq_decide]
  constructor
  · rintro ⟨hmem, hskip⟩
    obtain ⟨j, hj, hjid⟩ := List.mem_map.1 hmem
    have hj' := List.mem_filter.1 hj
    have hji : j = i := List.inj_on_of_nodup_map hids hj'.1 hi hjid
    have hjp := of_decide_eq_true hj'.2
    rw [hji] at hjp
    exact ⟨hjp.1, hskip⟩
  · intro hc
    refine ⟨List.mem_map.2 ⟨i, ?_, rfl⟩, hc.2⟩
    rw [outstandingExcInvoices]
    exact List.mem_filter.2 ⟨hi, decide_eq_true hc⟩

/-- Running the invoice-wizard classification with an empty recreate
selection on its own domain appends every outstanding exceptioned invoice
to the ignored set and leaves the recreated set unchanged. -/
theorem handleInvoiceClassify_empty (p : Purchase)
    (hids : (p.invoices.map Invoice.id).Nodup) :
    (handleInvoiceClassify [] ((outstandingExcInvoices p).map Invoice.id)
        p).invoicesIgnored
      = p.invoicesIgnored ++ outstandingExcInvoices p
    ∧ (handleInvoiceClassify [] ((outstandingExcInvoices p).map Invoice.id)
        p).invoicesRecreated
      = p.invoicesRecreated := by
  refine ⟨?_, handleInvoiceClassify_empty_recreated _ p⟩
  have hsel := classify_empty_selected p hids
  simp only [handleInvoiceClassify]
  rw [List.filter_congr (fun i _ => by simp : ∀ i ∈ p.invoices.filter (fun i =>
      decide (i.id ∈ (outstandingExcInvoices p).map Invoice.id
        ∧ i.id ∉ invSkipIds p)),
    (decide (i.id ∉ ([] : List Nat))) = true)]
  rw [List.filter_true, hsel]

/-- C7: running the invoice exception-handling wizard's handle step with
an empty recreate selection on its own domain moves every outstanding
exceptioned invoice to the ignored set (leaving the recreated set alone),
and the `process` call it triggers creates no duplicates: purchases in
`done`/`cancel` are skipped entirely, and when every line is covered by
its already-linked, non-recreated invoice lines and moves, the linked
invoices and the lines (hence their moves and invoice lines) are left
exactly as classification produced them. -/
theorem c7_wizard_idempotent (p : Purchase)
    (hids : (p.invoices.map Invoice.id).Nodup)
    (hpay : p.invoiceMethod = InvoiceMethod.manual ∨ p.partyHasPayable = true)
    (hinvcov : ∀ l ∈ p.lines, invoiceCovered p l)
    (hmvcov : ∀ l ∈ p.lines, moveCovered l) :
    ((handleInvoiceClassify [] ((outstandingExcInvoices p).map Invoice.id)
        p).invoicesIgnored
      = p.invoicesIgnored ++ outstandingExcInvoices p)
    ∧ ((handleInvoiceClassify [] ((outstandingExcInvoices p).map Invoice.id)
        p).invoicesRecreated
      = p.invoicesRecreated)
    ∧ ((p.state = PState.done ∨ p.state = PState.cancel) →
      handleInvoiceException [] ((outstandingExcInvoices p).map Invoice.id) p
        = Except.ok (handleInvoiceClassify []
            ((outstandingExcInvoices p).map Invoice.id) p))
    ∧ (p.state ≠ PState.done → p.state ≠ PState.cancel →
      ∃ p2, handleInvoiceException []
            ((outstandingExcInvoices p).map Invoice.id) p = Except.ok p2
        ∧ p2.invoices = (handleInvoiceClassify []
            ((outstandingExcInvoices p).map Invoice.id) p).invoices
        ∧ p2.lines = (handleInvoiceClassify []
            ((outstandingExcInvoices p).map Invoice.id) p).lines) := by
  obtain ⟨hig, hrec⟩ := handleInvoiceClassify_empty p hids
  refine ⟨hig, hrec, ?_, ?_⟩
  · intro hst
    have hst' : (handleInvoiceClassify []
          ((outstandingExcInvoices p).map Invoice.id) p).state = PState.done
        ∨ (handleInvoiceClassify []
          ((outstandingExcInvoices p).map Invoice.id) p).state = PState.cancel := hst
    unfold handleInvoiceException processOne
    rw [if_pos hst']
  · intro hd' hc'
    unfold handleInvoiceException
    have hgil : ∀ ity : InvoiceType,
        ∀ l ∈ (handleInvoiceClassify []
          ((outstandingExcInvoices p).map Invoice.id) p).lines,
        getInvoiceLine (handleInvoiceClassify []
          ((outstandingExcInvoices p).map Invoice.id) p) l ity
          = Except.ok [] := by
      intro ity l hl
      rw [getInvoiceLine_fields p (handleInvoiceClassify []
        ((outstandingExcInvoices p).map Invoice.id) p) l ity rfl rfl rfl hrec]
      exact getInvoiceLine_covered p l ity (hinvcov l hl)
    have hpay' : (handleInvoiceClassify []
          ((outstandingExcInvoices p).map Invoice.id) p).invoiceMethod
            = InvoiceMethod.manual
        ∨ (handleInvoiceClassify []
          ((outstandingExcInvoices p).map Invoice.id) p).partyHasPayable = true :=
      hpay
    have hci1 := createInvoice_noop InvoiceType.inInvoice
      (handleInvoiceClassify [] ((outstandingExcInvoices p).map Invoice.id) p)
      (Or.elim hpay' (fun h => Or.inl h)
        (fun h => Or.inr ⟨h, hgil InvoiceType.inInvoice⟩))
    have hci2 := createInvoice_noop InvoiceType.inCreditNote
      (handleInvoiceClassify [] ((outstandingExcInvoices p).map Invoice.id) p)
      (Or.elim hpay' (fun h => Or.inl h)
        (fun h => Or.inr ⟨h, hgil InvoiceType.inCreditNote⟩))
    have hgm : ∀ l ∈ (setInvoiceState (handleInvoiceClassify []
        ((outstandingExcInvoices p).map Invoice.id) p)).1.lines,
        getMove (setInvoiceState (handleInvoiceClassify []
          ((outstandingExcInvoices p).map Invoice.id) p)).1 l
          = Except.ok Option.none := by
      intro l hl
      rw [setInvoiceState_lines] at hl
      exact getMove_covered _ l (hmvcov l hl)
    have hcm1 := createMove_noop MoveDir.inward
      (setInvoiceState (handleInvoiceClassify []
        ((outstandingExcInvoices p).map Invoice.id) p)).1 hgm
    have hcm2 := createMove_noop MoveDir.outward
      (setInvoiceState (handleInvoiceClassify []
        ((outstandingExcInvoices p).map Invoice.id) p)).1 hgm
    have hsub : processSubsteps (handleInvoiceClassify []
        ((outstandingExcInvoices p).map Invoice.id) p)
        = Except.ok (setShipmentState (setInvoiceState (handleInvoiceClassify []
            ((outstandingExcInvoices p).map Invoice.id) p)).1).1 := by
      unfold processSubsteps
      rw [hci1]
      dsimp only
      rw [hci2]
      dsimp only
      rw [hcm1]
      dsimp only
      rw [hcm2]
      norm_num
    have hdnc : ¬ ((handleInvoiceClassify []
          ((outstandingExcInvoices p).map Invoice.id) p).state = PState.done
        ∨ (handleInvoiceClassify []
          ((outstandingExcInvoices p).map Invoice.id) p).state = PState.cancel) :=
      not_or.mpr ⟨hd', hc'⟩
    have hpo : processOne (handleInvoiceClassify []
        ((outstandingExcInvoices p).map Invoice.id) p)
        = Except.ok (if isDone (setShipmentState (setInvoiceState
              (handleInvoiceClassify []
                ((outstandingExcInvoices p).map Invoice.id) p)).1).1
            then { (setShipmentState (setInvoiceState (handleInvoiceClassify []
                ((outstandingExcInvoices p).map Invoice.id) p)).1).1
              with state := PState.done }
            else (setShipmentState (setInvoiceState (handleInvoiceClassify []
                ((outstandingExcInvoices p).map Invoice.id) p)).1).1) := by
      unfold processOne
      rw [if_neg hdnc, hsub]
    refine ⟨_, hpo, ?_, ?_⟩
    · by_cases hdone : isDone (setShipmentState (setInvoiceState
          (handleInvoiceClassify []
            ((outstandingExcInvoices p).map Invoice.id) p)).1).1 = true
      · rw [if_pos hdone]
        show (setShipmentState (setInvoiceState (handleInvoiceClassify []
          ((outstandingExcInvoices p).map Invoice.id) p)).1).1.invoices = _
        rw [setShipmentState_invoices, setInvoiceState_invoices]
      · rw [if_neg hdone]
        rw [setShipmentState_invoices, setInvoiceState_invoices]
    · by_cases hdone : isDone (setShipmentState (setInvoiceState
          (handleInvoiceClassify []
            ((outstandingExcInvoices p).map Invoice.id) p)).1).1 = true
      · rw [if_pos hdone]
        show (setShipmentState (setInvoiceState (handleInvoiceClassify []
          ((outstandingExcInvoices p).map Invoice.id) p)).1).1.lines = _
        rw [setShipmentState_lines, setInvoiceState_lines]
      · rw [if_neg hdone]
        rw [setShipmentState_lines, setInvoiceState_lines]

/-- C7 witness: on a confirmed manual-method purchase with one cancelled
linked invoice, the wizard ignores it and re-processing changes neither
the linked invoices nor the lines. -/
theorem c7_wizard_idempotent_witness :
    ((handleInvoiceClassify [] ((outstandingExcInvoices pExc).map Invoice.id)
        pExc).invoicesIgnored
      = pExc.invoicesIgnored ++ outstandingExcInvoices pExc)
    ∧ ∃ p2, handleInvoiceException []
          ((outstandingExcInvoices pExc).map Invoice.id) pExc = Except.ok p2
        ∧ p2.invoices = (handleInvoiceClassify []
            ((outstandingExcInvoices pExc).map Invoice.id) pExc).invoices
        ∧ p2.lines = (handleInvoiceClassify []
            ((outstandingExcInvoices pExc).map Invoice.id) pExc).lines :=
  ⟨(c7_wizard_idempotent pExc (by decide) (Or.inl rfl)
      (fun l hl => absurd hl (List.not_mem_nil l))
      (fun l hl => absurd hl (List.not_mem_nil l))).1,
   (c7_wizard_idempotent pExc (by decide) (Or.inl rfl)
      (fun l hl => absurd hl (List.not_mem_nil l))
      (fun l hl => absurd hl (List.not_mem_nil l))).2.2.2
     (by decide) (by decide)⟩

/-- The invoice-wizard classification step preserves the invoice-set
invariant: it only classifies linked, not-yet-classified invoices and puts
each into exactly one set. -/
theorem handleInvoiceClassify_invariant (toR dom : List Nat) (p : Purchase)
    (h : invInvariant p) : invInvariant (handleInvoiceClassify toR dom p) := by
  obtain ⟨hdisj, hil, hrl⟩ := h
  have hsel : ∀ j : Invoice, j ∈ p.invoices.filter (fun i =>
      decide (i.id ∈ dom ∧ i.id ∉ invSkipIds p)) →
      j ∈ p.invoices ∧ j.id ∈ dom ∧ j.id ∉ invSkipIds p := by
    intro j hj
    have h1 := List.mem_filter.1 hj
    exact ⟨h1.1, of_decide_eq_true h1.2⟩
  refine ⟨?_, ?_, ?_⟩ <;>
    simp only [handleInvoiceClassify, List.map_append, List.mem_append,
      List.mem_map] <;>
    intro x hx
  · rintro (⟨j, hj, hjx⟩ | ⟨j, hj, hjx⟩)
    · rcases hx with ⟨i, hi, hix⟩ | ⟨i, hi, hix⟩
      · exact hdisj x (List.mem_map.2 ⟨i, hi, hix⟩) (List.mem_map.2 ⟨j, hj, hjx⟩)
      · have h1 := List.mem_filter.1 hi
        have h2 := (hsel i h1.1).2.2
        apply h2
        rw [invSkipIds, List.mem_append]
        right
        rw [hix, ← hjx]
        exact List.mem_map.2 ⟨j, hj, rfl⟩
    · have h1 := List.mem_filter.1 hj
      have h2 := of_decide_eq_true h1.2
      have h3 := (hsel j h1.1).2.2
      rcases hx with ⟨i, hi, hix⟩ | ⟨i, hi, hix⟩
      · apply h3
        rw [invSkipIds, List.mem_append]
        left
        rw [hjx, ← hix]
        exact List.mem_map.2 ⟨i, hi, rfl⟩
      · have h4 := List.mem_filter.1 hi
        have h5 := of_decide_eq_true h4.2
        rw [← hix] at hjx
        exact h5 (hjx ▸ h2)
  · rcases hx with ⟨i, hi, hix⟩ | ⟨i, hi, hix⟩
    · obtain ⟨j, hj, hjx⟩ := List.mem_map.1 (hil x (List.mem_map.2 ⟨i, hi, hix⟩))
      exact ⟨j, hj, hjx⟩
    · have h1 := List.mem_filter.1 hi
      exact ⟨i, (hsel i h1.1).1, hix⟩
  · rcases hx with ⟨i, hi, hix⟩ | ⟨i, hi, hix⟩
    · obtain ⟨j, hj, hjx⟩ := List.mem_map.1 (hrl x (List.mem_map.2 ⟨i, hi, hix⟩))
      exact ⟨j, hj, hjx⟩
    · have h1 := List.mem_filter.1 hi
      exact ⟨i, (hsel i h1.1).1, hix⟩

/-- The shipment-wizard classification step preserves every line's
move-set invariant. -/
theorem handleShipmentClassify_invariant (toR dom : List Nat) (p : Purchase)
    (hmv : ∀ l ∈ p.lines, moveInvariant l) :
    ∀ l' ∈ (handleShipmentClassify toR dom p).lines, moveInvariant l' := by
  intro l' hl'
  simp only [handleShipmentClassify, List.mem_map] at hl'
  obtain ⟨l, hl, rfl⟩ := hl'
  obtain ⟨hdisj, hil, hrl⟩ := hmv l hl
  have hsel : ∀ m : Move, m ∈ l.moves.filter (fun m =>
      decide (m.id ∈ dom ∧ m.id ∉ l.movesIgnored ∧ m.id ∉ l.movesRecreated)) →
      m ∈ l.moves ∧ m.id ∈ dom ∧ m.id ∉ l.movesIgnored
        ∧ m.id ∉ l.movesRecreated := by
    intro m hm
    have h1 := List.mem_filter.1 hm
    exact ⟨h1.1, of_decide_eq_true h1.2⟩
  refine ⟨?_, ?_, ?_⟩ <;>
    simp only [List.mem_append, List.mem_map] <;>
    intro x hx
  · rintro (hy | ⟨m, hm, hmx⟩)
    · rcases hx with hx | ⟨m, hm, hmx⟩
      · exact hdisj x hx hy
      · have h1 := List.mem_filter.1 hm
        exact (hsel m h1.1).2.2.2 (hmx ▸ hy)
    · have h1 := List.mem_filter.1 hm
      have h2 := of_decide_eq_true h1.2
      rcases hx with hx | ⟨m', hm', hm'x⟩
      · exact (hsel m h1.1).2.2.1 (hmx ▸ hx)
      · have h3 := List.mem_filter.1 hm'
        have h4 := of_decide_eq_true h3.2
        rw [← hm'x] at hmx
        exact h4 (hmx ▸ h2)
  · rcases hx with hx | ⟨m, hm, hmx⟩
    · obtain ⟨m, hm, hmx⟩ := List.mem_map.1 (hil x hx)
      exact ⟨m, hm, hmx⟩
    · have h1 := List.mem_filter.1 hm
      exact ⟨m, (hsel m h1.1).1, hmx⟩
  · rcases hx with hx | ⟨m, hm, hmx⟩
    · obtain ⟨m, hm, hmx⟩ := List.mem_map.1 (hrl x hx)
      exact ⟨m, hm, hmx⟩
    · have h1 := List.mem_filter.1 hm
      exact ⟨m, (hsel m h1.1).1, hmx⟩

/-- The invoice-set invariant transports along the processing frame. -/
theorem invInvariant_frame (p q : Purchase)
    (hset1 : q.invoicesIgnored = p.invoicesIgnored)
    (hset2 : q.invoicesRecreated = p.invoicesRecreated)
    (hgrow : ∀ i ∈ p.invoices, i ∈ q.invoices)
    (h : invInvariant p) : invInvariant q := by
  obtain ⟨hdisj, hil, hrl⟩ := h
  rw [invInvariant, hset1, hset2]
  refine ⟨hdisj, ?_, ?_⟩
  · intro x hx
    obtain ⟨i, hi, hix⟩ := List.mem_map.1 (hil x hx)
    exact List.mem_map.2 ⟨i, hgrow i hi, hix⟩
  · intro x hx
    obtain ⟨i, hi, hix⟩ := List.mem_map.1 (hrl x hx)
    exact List.mem_map.2 ⟨i, hgrow i hi, hix⟩

/-- The move-set invariant transports along a `lineFrame` step. -/
theorem moveInvariant_lineFrame (l l' : PurchaseLine) (hf : lineFrame l l')
    (h : moveInvariant l) : moveInvariant l' := by
  obtain ⟨f1, f2, f3⟩ := hf
  obtain ⟨hdisj, hil, hrl⟩ := h
  rw [moveInvariant, f1, f2]
  refine ⟨hdisj, ?_, ?_⟩
  · intro x hx
    obtain ⟨m, hm, hmx⟩ := List.mem_map.1 (hil x hx)
    exact List.mem_map.2 ⟨m, f3 m hm, hmx⟩
  · intro x hx
    obtain ⟨m, hm, hmx⟩ := List.mem_map.1 (hrl x hx)
    exact List.mem_map.2 ⟨m, f3 m hm, hmx⟩

/-- C8: the ignored and recreated sets stay disjoint and remain subsets of
the linked objects: both wizard classification steps only classify linked,
not-yet-classified objects, each into exactly one set, and the `process`
call they trigger preserves the sets and only grows the linked objects. -/
theorem c8_sets_invariant (toR dom : List Nat) (p : Purchase)
    (hinv : invInvariant p) (hmv : ∀ l ∈ p.lines, moveInvariant l) :
    invInvariant (handleInvoiceClassify toR dom p)
    ∧ (∀ l ∈ (handleShipmentClassify toR dom p).lines, moveInvariant l)
    ∧ (∀ r, handleInvoiceException toR dom p = Except.ok r →
        invInvariant r ∧ ∀ l ∈ r.lines, moveInvariant l)
    ∧ (∀ r, handleShipmentException toR dom p = Except.ok r →
        invInvariant r ∧ ∀ l ∈ r.lines, moveInvariant l) := by
  have hic := handleInvoiceClassify_invariant toR dom p hinv
  have hsc := handleShipmentClassify_invariant toR dom p hmv
  refine ⟨hic, hsc, ?_, ?_⟩
  · intro r hr
    have hf := processOne_frame _ r hr
    refine ⟨invInvariant_frame _ r hf.1 hf.2.1 hf.2.2.1 hic, ?_⟩
    intro l' hl'
    obtain ⟨l, hl, hlf⟩ := forall₂_lineFrame_mem_right hf.2.2.2 l' hl'
    exact moveInvariant_lineFrame l l' hlf (hmv l hl)
  · intro r hr
    have hf := processOne_frame _ r hr
    have hinv' : invInvariant (handleShipmentClassify toR dom p) := hinv
    refine ⟨invInvariant_frame _ r hf.1 hf.2.1 hf.2.2.1 hinv', ?_⟩
    intro l' hl'
    obtain ⟨l, hl, hlf⟩ := forall₂_lineFrame_mem_right hf.2.2.2 l' hl'
    exact moveInvariant_lineFrame l l' hlf (hsc l hl)

/-- C8 witness: on a concrete purchase with one cancelled invoice and one
line with a cancelled move, running both wizard handle steps with an empty
selection keeps the invariants. -/
theorem c8_sets_invariant_witness :
    invInvariant (handleInvoiceClassify [] [1] pExc2)
    ∧ (∀ l ∈ (handleShipmentClassify [] [8] pExc2).lines, moveInvariant l) :=
  ⟨(c8_sets_invariant [] [1] pExc2 ⟨by decide, by decide, by decide⟩
      (by intro l hl; fin_cases hl; exact ⟨by decide, by decide, by decide⟩)).1,
   (c8_sets_invariant [] [8] pExc2 ⟨by decide, by decide, by decide⟩
      (by intro l hl; fin_cases hl; exact ⟨by decide, by decide, by decide⟩)).2.1⟩
